import Mathlib

/-!
Shallow embedding of `webrtc/rtc_base/testclient.cc` (class `rtc::TestClient`).

Time is modelled as an `Int` counter of milliseconds held in the state; `AdvanceTime(1)`
increments it by one quantum.  Packet arrival is modelled by an oracle
`arrive : Int → List Packet` giving the packets delivered (via `TestClient::OnPacket`,
a `push_back` into the inbox) while time advances to the given instant.  The polling
loops of `NextPacket` and `CheckConnState` are written with an explicit fuel equal to
`timeoutMs.toNat`; since every iteration increments `now` by exactly 1 and the loop
condition is `end - now > 0`, this fuel is exactly the number of iterations the C++
loop can perform, so the fuel never truncates the loop (a fuel-irrelevance lemma below
makes this precise).
-/

namespace RtcTestClient

/-- One received datagram, translated from `TestClient::Packet`: source address,
payload bytes (the `buf`/`size` pair, modelled as the list of copied bytes) and the
capture timestamp (`packet_time.timestamp`). -/
structure Packet where
  addr : Nat
  buf : List Nat
  timestamp : Int
deriving DecidableEq, Repr

/-- The mutable state of a `TestClient` that the claims concern: the current time,
the packet inbox `packets_`, and the timestamp watermark `prev_packet_timestamp_`
(initialised to `-1` in the constructor). -/
structure ClientState where
  now : Int
  packets : List Packet
  prevPacketTimestamp : Int
deriving DecidableEq, Repr

/-- `TestClient::OnPacket`: append the freshly copied packet at the tail of the inbox
(`packets_.push_back`). -/
def onPacket (s : ClientState) (p : Packet) : ClientState :=
  { s with packets := s.packets ++ [p] }

/-- `TestClient::AdvanceTime(1)`: advance time by one quantum; any packets the oracle
delivers at the new instant are enqueued (each by an `OnPacket` call, i.e. appended in
order at the tail). -/
def advanceTime (arrive : Int → List Packet) (s : ClientState) : ClientState :=
  { s with now := s.now + 1, packets := s.packets ++ arrive (s.now + 1) }

/-- The single dequeue attempt at the end of `TestClient::NextPacket`:
`if (packets_.size() > 0) { packet = std::move(packets_.front()); packets_.erase(begin); }`. -/
def tryDequeue (s : ClientState) : Option Packet × ClientState :=
  match s.packets with
  | [] => (none, s)
  | p :: rest => (some p, { s with packets := rest })

/-- The polling loop of `TestClient::NextPacket`:
`while (TimeUntil(end) > 0) { if (packets_.size() != 0) break; AdvanceTime(1); }`.
`endTime` is the deadline `end`; the fuel is spent one unit per iteration. -/
def nextPacketLoop (arrive : Int → List Packet) (endTime : Int) :
    Nat → ClientState → ClientState
  | 0, s => s
  | Nat.succ n, s =>
      if 0 < endTime - s.now then
        if s.packets.length ≠ 0 then s
        else nextPacketLoop arrive endTime n (advanceTime arrive s)
      else s

/-- `TestClient::NextPacket(timeout_ms)`: compute `end = TimeAfter(timeout_ms)`,
run the polling loop, then perform exactly one dequeue attempt and return its result. -/
def nextPacket (arrive : Int → List Packet) (timeoutMs : Int) (s : ClientState) :
    Option Packet × ClientState :=
  tryDequeue (nextPacketLoop arrive (s.now + timeoutMs) timeoutMs.toNat s)

/-- Modelled from the spec: the default wait timeout `kTimeoutMs` is declared in the
header `testclient.h`, which is not part of the sources; the spec only records that it
is a fixed compiled-in test timeout constant. The value is irrelevant to every claim;
5000 ms is used as a representative positive constant. -/
def kTimeoutMs : Int := 5000

/-- Modelled from the spec: the short fixed timeout `kNoPacketTimeoutMs` used by
`CheckNoPacket` ("wait with a short fixed timeout, expect empty") is declared in the
missing header `testclient.h`. The value is irrelevant to every claim; 1000 ms is used
as a representative positive constant. -/
def kNoPacketTimeoutMs : Int := 1000

/-- The polling loop of `TestClient::CheckConnState`:
`while (socket_->GetState() != state && TimeUntil(end) > 0) { AdvanceTime(1); }`.
The socket's reported state is an oracle `stateAt` of the current time (advancing time
pumps the event loop, which may change it); the loop returns the time at which it
stopped. -/
def checkConnStateLoop (stateAt : Int → Nat) (target : Nat) (endTime : Int) :
    Nat → Int → Int
  | 0, now => now
  | Nat.succ n, now =>
      if stateAt now ≠ target ∧ 0 < endTime - now then
        checkConnStateLoop stateAt target endTime n (now + 1)
      else now

/-- `TestClient::CheckConnState(state)`: wait up to `kTimeoutMs` for the socket to
reach the desired state, then `return (socket_->GetState() == state)`. -/
def checkConnState (stateAt : Int → Nat) (target : Nat) (now0 : Int) : Bool :=
  decide (stateAt (checkConnStateLoop stateAt target (now0 + kTimeoutMs)
    kTimeoutMs.toNat now0) = target)

/-- `TestClient::CheckTimestamp(packet_timestamp)` acting on the watermark
`prev_packet_timestamp_` (first component: the returned `bool`; second component: the
new watermark): `res = true; if (ts == -1) res = false;
if (prev != -1) { if (ts < prev) res = false; } prev = ts; return res;`. -/
def checkTimestamp (prev : Int) (packetTimestamp : Int) : Bool × Int :=
  let res := true
  let res := if packetTimestamp = -1 then false else res
  let res := if prev ≠ -1 ∧ packetTimestamp < prev then false else res
  (res, packetTimestamp)

/-- `TestClient::CheckNextPacket(buf, size, addr)`: one `NextPacket(kTimeoutMs)` call;
if a packet was obtained, compare its payload with the expected bytes (`size` equality
plus `memcmp`, which the payload-as-list equality `p.buf = buf` encodes) and — only
when the bytes match, because `&&` short-circuits — run `CheckTimestamp`; finally, if
the out-address pointer is non-null (`wantAddr`), write the packet's source address
through it (second component of the result). -/
def checkNextPacket (arrive : Int → List Packet) (buf : List Nat) (wantAddr : Bool)
    (s : ClientState) : Bool × Option Nat × ClientState :=
  match nextPacket arrive kTimeoutMs s with
  | (none, s1) => (false, none, s1)
  | (some p, s1) =>
      let step :=
        if p.buf = buf then
          let r := checkTimestamp s1.prevPacketTimestamp p.timestamp
          (r.1, { s1 with prevPacketTimestamp := r.2 })
        else (false, s1)
      (step.1, if wantAddr then some p.addr else none, step.2)

/-- `TestClient::CheckNoPacket()`: `return NextPacket(kNoPacketTimeoutMs) == nullptr;`
(the state after the call is kept, since the dequeue attempt mutates the inbox). -/
def checkNoPacket (arrive : Int → List Packet) (s : ClientState) : Bool × ClientState :=
  match nextPacket arrive kNoPacketTimeoutMs s with
  | (p, s1) => (p.isNone, s1)

/-- `rtc::PacketOptions`, default-constructed per send call (`rtc::PacketOptions
options;`); only its default value matters to the facade. -/
structure PacketOptions where
  dscp : Int := 0
deriving DecidableEq, Repr

/-- The capabilities `TestClient` consumes from its `AsyncPacketSocket` collaborator,
as result oracles: what the socket returns for each call. -/
structure AsyncPacketSocket where
  send : List Nat → PacketOptions → Int
  sendTo : List Nat → Nat → PacketOptions → Int
  getError : Int
  setOption : Nat → Int → Int

/-- `TestClient::Send(buf, size)`: `rtc::PacketOptions options; return
socket_->Send(buf, size, options);`. -/
def clientSend (sock : AsyncPacketSocket) (buf : List Nat) : Int :=
  sock.send buf {}

/-- `TestClient::SendTo(buf, size, dest)`: `rtc::PacketOptions options; return
socket_->SendTo(buf, size, dest, options);`. -/
def clientSendTo (sock : AsyncPacketSocket) (buf : List Nat) (dest : Nat) : Int :=
  sock.sendTo buf dest {}

/-- `TestClient::GetError()`: `return socket_->GetError();`. -/
def clientGetError (sock : AsyncPacketSocket) : Int :=
  sock.getError

/-- `TestClient::SetOption(opt, value)`: `return socket_->SetOption(opt, value);`. -/
def clientSetOption (sock : AsyncPacketSocket) (opt : Nat) (value : Int) : Int :=
  sock.setOption opt value

/-- Repeatedly perform dequeue attempts (`tryDequeue`), collecting the returned
packets until one attempt returns empty; the fuel bounds the number of attempts. -/
def drainN : Nat → ClientState → List Packet
  | 0, _ => []
  | Nat.succ n, s =>
      match tryDequeue s with
      | (none, _) => []
      | (some p, s1) => p :: drainN n s1

/-- The waiting loop as the SPEC words it (section 4.2, step 2): "Loop while
now < deadline: (a) if PacketInbox is non-empty, break out of the loop immediately;
(b) otherwise, advance time by a small fixed quantum (1 time-unit) and re-check."
Written from the spec's words, independently of the source, for the refinement
comparison of claim C1. -/
def specWaitLoop (arrive : Int → List Packet) (deadline : Int) :
    Nat → ClientState → ClientState
  | 0, s => s
  | Nat.succ n, s =>
      if s.now < deadline then
        if s.packets ≠ [] then s
        else specWaitLoop arrive deadline n (advanceTime arrive s)
      else s

/-- `waitForNextPacket` as the SPEC words it (section 4.2): "1. Compute deadline =
now + timeoutMs. 2. Loop [see `specWaitLoop`]. 3. After the loop (by timeout or
break), attempt one final dequeue from PacketInbox and return its result (empty if
nothing arrived)." -/
def waitForNextPacketSpec (arrive : Int → List Packet) (timeoutMs : Int)
    (s : ClientState) : Option Packet × ClientState :=
  match (specWaitLoop arrive (s.now + timeoutMs) timeoutMs.toNat s).packets with
  | [] => (none, specWaitLoop arrive (s.now + timeoutMs) timeoutMs.toNat s)
  | p :: rest =>
      (some p, { specWaitLoop arrive (s.now + timeoutMs) timeoutMs.toNat s with
        packets := rest })

/-! ### Heap model for the `Packet` constructors

`TestClient::Packet`'s constructors allocate a fresh `new char[size]` buffer and
`memcpy` the payload into it.  To state the no-aliasing part of claim C9, buffers
live in an explicit heap: a list of byte buffers indexed by allocation order, where
allocating appends a new buffer (so a fresh allocation never reuses an existing
index). -/

/-- The allocation heap: one entry per `new char[]` buffer, indexed by allocation
order. -/
abbrev Heap := List (List Nat)

/-- Read the bytes of the buffer with the given index. -/
def heapRead (h : Heap) (i : Nat) : List Nat := h.getD i []

/-- A `TestClient::Packet` whose payload lives in the heap: source address, index of
its owned buffer, `size`, and timestamp. -/
structure HeapPacket where
  addr : Nat
  bufId : Nat
  size : Nat
  timestamp : Int
deriving DecidableEq, Repr

/-- `TestClient::Packet::Packet(a, b, s, packet_time)`: member-initialise `addr`,
`size` and `packet_time`, then `buf = new char[size]; memcpy(buf, b, size);` —
allocate a fresh buffer and copy the first `size` bytes of the source buffer into
it. -/
def packetCtor (h : Heap) (a : Nat) (b : List Nat) (size : Nat) (ts : Int) :
    Heap × HeapPacket :=
  (h ++ [b.take size], ⟨a, h.length, size, ts⟩)

/-- `TestClient::Packet::Packet(const Packet& p)`: copy `addr`, `size` and
`packet_time` from `p`, then `buf = new char[size]; memcpy(buf, p.buf, size);` —
allocate a fresh buffer and copy `p`'s payload bytes into it. -/
def packetCopyCtor (h : Heap) (p : HeapPacket) : Heap × HeapPacket :=
  (h ++ [(heapRead h p.bufId).take p.size], ⟨p.addr, h.length, p.size, p.timestamp⟩)

/-! ### Helper lemmas -/

theorem heapRead_append_self (h : Heap) (x : List Nat) :
    heapRead (h ++ [x]) h.length = x := by
  induction h with
  | nil => rfl
  | cons y t ih =>
      simp only [List.cons_append, List.length_cons, heapRead, List.getD_cons_succ]
      exact ih

theorem heapRead_append_of_lt (h : Heap) (x : List Nat) :
    ∀ i, i < h.length → heapRead (h ++ [x]) i = heapRead h i := by
  induction h with
  | nil =>
      intro i hi
      exact absurd hi (Nat.not_lt_zero i)
  | cons y t ih =>
      intro i hi
      cases i with
      | zero => rfl
      | succ i =>
          simp only [List.cons_append, heapRead, List.getD_cons_succ]
          exact ih i (by simpa using hi)

theorem tryDequeue_fst (s : ClientState) : (tryDequeue s).1 = s.packets.head? := by
  unfold tryDequeue
  cases s.packets <;> rfl

theorem tryDequeue_now (s : ClientState) : (tryDequeue s).2.now = s.now := by
  unfold tryDequeue
  cases s.packets <;> rfl

theorem tryDequeue_prev (s : ClientState) :
    (tryDequeue s).2.prevPacketTimestamp = s.prevPacketTimestamp := by
  unfold tryDequeue
  cases s.packets <;> rfl

theorem advanceTime_now (arrive : Int → List Packet) (s : ClientState) :
    (advanceTime arrive s).now = s.now + 1 := rfl

/-- The fuel `timeoutMs.toNat` does not truncate the loop: if the fuel is at least
the remaining time `(endTime - s.now).toNat`, handing the loop more fuel does not
change its result, because the time-condition `0 < endTime - now` fails as soon as
the remaining time is exhausted. -/
theorem nextPacketLoop_fuel_irrelevant (arrive : Int → List Packet) (endTime : Int) :
    ∀ (n m : Nat) (s : ClientState), (endTime - s.now).toNat ≤ n →
      (endTime - s.now).toNat ≤ m →
      nextPacketLoop arrive endTime n s = nextPacketLoop arrive endTime m s := by
  intro n
  induction n with
  | zero =>
      intro m s hn _
      have hcond : ¬ 0 < endTime - s.now := by omega
      cases m with
      | zero => rfl
      | succ m => simp only [nextPacketLoop, if_neg hcond]
  | succ n ih =>
      intro m s hn hm
      by_cases hcond : 0 < endTime - s.now
      · cases m with
        | zero => omega
        | succ m =>
            simp only [nextPacketLoop, if_pos hcond]
            by_cases hp : s.packets.length ≠ 0
            · rw [if_pos hp, if_pos hp]
            · rw [if_neg hp, if_neg hp]
              have hadv : (endTime - (advanceTime arrive s).now).toNat ≤ n := by
                rw [advanceTime_now]; omega
              have hadv2 : (endTime - (advanceTime arrive s).now).toNat ≤ m := by
                rw [advanceTime_now]; omega
              exact ih m (advanceTime arrive s) hadv hadv2
      · cases m with
        | zero => simp only [nextPacketLoop, if_neg hcond]
        | succ m => simp only [nextPacketLoop, if_neg hcond]

/-- The source loop and the spec's loop agree for every fuel: the loop conditions
`0 < endTime - now` / `now < deadline` and `packets.length ≠ 0` / `packets ≠ []`
are equivalent and the bodies coincide. -/
theorem nextPacketLoop_eq_specWaitLoop (arrive : Int → List Packet) (endTime : Int) :
    ∀ (n : Nat) (s : ClientState),
      nextPacketLoop arrive endTime n s = specWaitLoop arrive endTime n s := by
  intro n
  induction n with
  | zero => intro s; rfl
  | succ n ih =>
      intro s
      simp only [nextPacketLoop, specWaitLoop]
      by_cases hcond : 0 < endTime - s.now
      · have hcond2 : s.now < endTime := by omega
        rw [if_pos hcond, if_pos hcond2]
        by_cases hp : s.packets = []
        · have hlen : ¬ s.packets.length ≠ 0 := by simp [hp]
          have hp2 : ¬ s.packets ≠ [] := by simp [hp]
          rw [if_neg hlen, if_neg hp2]
          exact ih (advanceTime arrive s)
        · have hlen : s.packets.length ≠ 0 := by simp [hp]
          rw [if_pos hlen, if_pos hp]
      · have hcond2 : ¬ s.now < endTime := by omega
        rw [if_neg hcond, if_neg hcond2]

theorem tryDequeue_eq_specDequeue (s : ClientState) :
    tryDequeue s =
      match s.packets with
      | [] => (none, s)
      | p :: rest => (some p, { s with packets := rest }) := rfl

/-! ### Claim theorems -/

/-- Claim C1: for every timeout value, `NextPacket` follows the specified algorithm —
deadline `now + timeout`, a loop that breaks immediately (no further time advance) as
soon as the inbox is non-empty and otherwise advances time by one quantum per
iteration, followed by exactly one dequeue attempt whose result is returned: the
oldest queued packet (`head?` of the inbox) if one is present, empty otherwise. -/
theorem nextPacket_follows_spec (arrive : Int → List Packet) (timeoutMs : Int)
    (s : ClientState) :
    nextPacket arrive timeoutMs s = waitForNextPacketSpec arrive timeoutMs s ∧
    (nextPacket arrive timeoutMs s).1 =
      (nextPacketLoop arrive (s.now + timeoutMs) timeoutMs.toNat s).packets.head? := by
  constructor
  · unfold nextPacket waitForNextPacketSpec
    rw [nextPacketLoop_eq_specWaitLoop]
    rw [tryDequeue_eq_specDequeue]
  · unfold nextPacket
    exact tryDequeue_fst _

/-- Claim C3: for a timeout of zero, and likewise any negative timeout, the polling
loop body never executes — time is not advanced — and the call still performs exactly
one dequeue attempt, returning the head packet if one is already present and empty
otherwise. -/
theorem nextPacket_nonpositive_timeout (arrive : Int → List Packet) (timeoutMs : Int)
    (s : ClientState) (ht : timeoutMs ≤ 0) :
    nextPacket arrive timeoutMs s = tryDequeue s ∧
    (nextPacket arrive timeoutMs s).2.now = s.now ∧
    (nextPacket arrive timeoutMs s).1 = s.packets.head? := by
  have h0 : timeoutMs.toNat = 0 := Int.toNat_of_nonpos ht
  unfold nextPacket
  rw [h0]
  exact ⟨rfl, tryDequeue_now s, tryDequeue_fst s⟩

/-- Witness for C3 at timeout 0 and an empty inbox. -/
theorem nextPacket_nonpositive_timeout_witness :
    nextPacket (fun _ => []) 0 ⟨0, [], -1⟩ = tryDequeue ⟨0, [], -1⟩ ∧
    (nextPacket (fun _ => []) 0 ⟨0, [], -1⟩).2.now = (⟨0, [], -1⟩ : ClientState).now ∧
    (nextPacket (fun _ => []) 0 ⟨0, [], -1⟩).1 =
      (⟨0, [], -1⟩ : ClientState).packets.head? :=
  nextPacket_nonpositive_timeout (fun _ => []) 0 ⟨0, [], -1⟩ (by decide)

/-- Claim C2 counterexample: with observed watermark 5, a call with timestamp 3 fails
(returns `false`) and yet the watermark IS updated, to 3 — refuting the claim's
assertion that on a failing call the watermark is not updated. -/
theorem checkTimestamp_failing_call_updates_cex :
    (checkTimestamp 5 3).1 = false ∧ (checkTimestamp 5 3).2 = 3 ∧
      (checkTimestamp 5 3).2 ≠ 5 := by decide

/-- Claim C2 (amended): `CheckTimestamp` returns `false` if its argument is the unset
sentinel `-1`, and returns `false` if its argument is strictly less than the
previously observed timestamp when one has been observed; otherwise it returns
`true`. In every case — failing calls included — the stored watermark is updated to
the argument. -/
theorem checkTimestamp_semantics (prev ts : Int) :
    ((checkTimestamp prev ts).1 = true ↔ ts ≠ -1 ∧ (prev ≠ -1 → prev ≤ ts)) ∧
    (checkTimestamp prev ts).2 = ts := by
  refine ⟨?_, rfl⟩
  simp only [checkTimestamp]
  split_ifs with h1 h2 <;> simp_all

/-- Claim C7: every `CheckTimestamp` call sets the watermark to its argument before
returning, including failing calls; and after a call with the sentinel `-1` the
watermark is reset to the unset state, so the next call's monotonicity comparison is
skipped — it succeeds for every non-sentinel argument, however small. -/
theorem checkTimestamp_always_writes_watermark (prev ts ts2 : Int) :
    (checkTimestamp prev ts).2 = ts ∧
    ((checkTimestamp (checkTimestamp prev (-1)).2 ts2).1 = true ↔ ts2 ≠ -1) := by
  refine ⟨rfl, ?_⟩
  show (checkTimestamp (-1) ts2).1 = true ↔ ts2 ≠ -1
  simp only [checkTimestamp]
  split_ifs with h1 h2 <;> simp_all

/-- Characterisation of the `CheckConnState` loop when the fuel equals the remaining
time: the state check at the loop's final instant succeeds iff the target state is
reported at some instant within the window. -/
theorem checkConnStateLoop_reaches (stateAt : Int → Nat) (target : Nat) :
    ∀ (n : Nat) (now : Int),
      (stateAt (checkConnStateLoop stateAt target (now + n) n now) = target ↔
        ∃ k : Nat, k ≤ n ∧ stateAt (now + k) = target) := by
  intro n
  induction n with
  | zero =>
      intro now
      constructor
      · intro h
        exact ⟨0, le_refl 0, by simpa using h⟩
      · rintro ⟨k, hk, hs⟩
        have hz : k = 0 := Nat.le_zero.mp hk
        subst hz
        simpa using hs
  | succ n ih =>
      intro now
      by_cases h : stateAt now = target
      · have hstop : checkConnStateLoop stateAt target (now + ((n + 1 : Nat) : Int))
            (n + 1) now = now := by
          simp only [checkConnStateLoop]
          rw [if_neg (fun hc => hc.1 h)]
        rw [hstop]
        constructor
        · intro _
          exact ⟨0, by omega, by simpa using h⟩
        · intro _
          exact h
      · have hcond : stateAt now ≠ target ∧ 0 < now + ((n + 1 : Nat) : Int) - now := by
          refine ⟨h, ?_⟩
          push_cast
          omega
        have hE : now + ((n + 1 : Nat) : Int) = (now + 1) + (n : Int) := by
          push_cast
          ring
        simp only [checkConnStateLoop]
        rw [if_pos hcond, hE, ih (now + 1)]
        constructor
        · rintro ⟨k, hk, hs⟩
          refine ⟨k + 1, by omega, ?_⟩
          have hc : now + ((k + 1 : Nat) : Int) = now + 1 + (k : Int) := by
            push_cast
            ring
          rw [hc]
          exact hs
        · rintro ⟨k, hk, hs⟩
          cases k with
          | zero => exact absurd (by simpa using hs) h
          | succ k =>
              refine ⟨k, by omega, ?_⟩
              have hc : now + 1 + (k : Int) = now + ((k + 1 : Nat) : Int) := by
                push_cast
                ring
              rw [hc]
              exact hs

/-- Claim C4: `CheckConnState` polls with the same loop shape as `NextPacket`, the
loop condition being that the socket's reported state equals the target state; it
returns `true` exactly when the target state is reached within the timeout window
(at some poll instant up to the deadline), and on timeout it raises nothing — it
only returns `false`. -/
theorem checkConnState_iff (stateAt : Int → Nat) (target : Nat) (now0 : Int) :
    checkConnState stateAt target now0 = true ↔
      ∃ k : Nat, k ≤ kTimeoutMs.toNat ∧ stateAt (now0 + k) = target := by
  unfold checkConnState
  rw [decide_eq_true_eq]
  have hE : now0 + kTimeoutMs = now0 + (kTimeoutMs.toNat : Int) := by
    norm_num [kTimeoutMs]
  rw [hE]
  exact checkConnStateLoop_reaches stateAt target kTimeoutMs.toNat now0

/-- Draining a state whose inbox holds `l` with `l.length` dequeue attempts returns
exactly `l`, in order. -/
theorem drainN_full : ∀ (l : List Packet) (now prev : Int),
    drainN l.length ⟨now, l, prev⟩ = l := by
  intro l
  induction l with
  | nil =>
      intro now prev
      rfl
  | cons p rest ih =>
      intro now prev
      simp only [List.length_cons, drainN, tryDequeue]
      rw [ih]

/-- Enqueuing a batch of arrivals appends them, in order, at the tail of the inbox. -/
theorem foldl_onPacket_packets : ∀ (ps : List Packet) (s : ClientState),
    (ps.foldl onPacket s).packets = s.packets ++ ps := by
  intro ps
  induction ps with
  | nil =>
      intro s
      simp
  | cons p rest ih =>
      intro s
      simp only [List.foldl_cons]
      rw [ih]
      simp [onPacket]

/-- Claim C5: the packet inbox is FIFO — every arrival notification (`OnPacket`)
appends its packet at the tail, dequeues remove from the head, and draining the
inbox returns every packet in exactly arrival order, with no reordering, dropping
or prioritisation. -/
theorem inbox_fifo (s : ClientState) (ps : List Packet) :
    (ps.foldl onPacket s).packets = s.packets ++ ps ∧
    drainN (s.packets ++ ps).length (ps.foldl onPacket s) = s.packets ++ ps := by
  have h1 := foldl_onPacket_packets ps s
  refine ⟨h1, ?_⟩
  rcases hst : ps.foldl onPacket s with ⟨n1, l1, p1⟩
  rw [hst] at h1
  rw [← h1]
  exact drainN_full l1 n1 p1

theorem checkNoPacket_fst (arrive : Int → List Packet) (s : ClientState) :
    (checkNoPacket arrive s).1 = (nextPacket arrive kNoPacketTimeoutMs s).1.isNone := by
  unfold checkNoPacket
  rcases nextPacket arrive kNoPacketTimeoutMs s with ⟨p, s1⟩
  rfl

/-- Claim C6: the absence of a packet is never an exception or error —
`CheckNoPacket` returns `true` exactly when the `NextPacket` call with the fixed
short no-packet timeout returns the empty optional, and that result is empty exactly
when the inbox is still empty after the polling window. -/
theorem checkNoPacket_absence_is_empty_result (arrive : Int → List Packet)
    (s : ClientState) :
    ((checkNoPacket arrive s).1 = true ↔
      (nextPacket arrive kNoPacketTimeoutMs s).1 = none) ∧
    ((nextPacket arrive kNoPacketTimeoutMs s).1 = none ↔
      (nextPacketLoop arrive (s.now + kNoPacketTimeoutMs)
        kNoPacketTimeoutMs.toNat s).packets = []) := by
  constructor
  · rw [checkNoPacket_fst]
    exact Option.isNone_iff_eq_none
  · unfold nextPacket
    rw [tryDequeue_fst]
    exact List.head?_eq_none_iff

/-- Claim C8: whenever `CheckNextPacket` obtains a packet within its timeout, that
packet is removed from the inbox for good (the final inbox equals `NextPacket`'s
post-dequeue inbox) and, with a non-null out-address pointer, the packet's source
address is written through it — both regardless of whether the byte comparison or
the timestamp check succeeds, so a call returning `false` may still have consumed a
packet and written the address. -/
theorem checkNextPacket_consumes (arrive : Int → List Packet) (buf : List Nat)
    (s : ClientState) (p : Packet)
    (h : (nextPacket arrive kTimeoutMs s).1 = some p) :
    (checkNextPacket arrive buf true s).2.1 = some p.addr ∧
    (checkNextPacket arrive buf true s).2.2.packets =
      (nextPacket arrive kTimeoutMs s).2.packets := by
  unfold checkNextPacket
  rcases hnp : nextPacket arrive kTimeoutMs s with ⟨opt, s1⟩
  rw [hnp] at h
  simp only at h
  subst h
  by_cases hb : p.buf = buf <;> simp [hb]

/-- Witness for C8: a client whose inbox already holds one packet; the expected
bytes do not match, so the call returns `false`, yet the packet is consumed and its
address written out. -/
theorem checkNextPacket_consumes_witness :
    (checkNextPacket (fun _ => []) [9] true ⟨0, [⟨7, [1, 2], 4⟩], -1⟩).2.1 =
      some (Packet.mk 7 [1, 2] 4).addr ∧
    (checkNextPacket (fun _ => []) [9] true ⟨0, [⟨7, [1, 2], 4⟩], -1⟩).2.2.packets =
      (nextPacket (fun _ => []) kTimeoutMs ⟨0, [⟨7, [1, 2], 4⟩], -1⟩).2.packets :=
  checkNextPacket_consumes (fun _ => []) [9] ⟨0, [⟨7, [1, 2], 4⟩], -1⟩ ⟨7, [1, 2], 4⟩
    (by decide)

/-- Claim C10: `Send` and `SendTo` forward the buffer to the underlying socket with
default-constructed per-call options and return the socket's result verbatim (byte
count or negative error code) — no buffering, retry, queuing or reinterpretation —
and `GetError` and `SetOption` likewise return the underlying socket's result
verbatim. -/
theorem send_facade_forwards (sock : AsyncPacketSocket) (buf : List Nat) (dest : Nat)
    (opt : Nat) (value : Int) :
    clientSend sock buf = sock.send buf {} ∧
    clientSendTo sock buf dest = sock.sendTo buf dest {} ∧
    clientGetError sock = sock.getError ∧
    clientSetOption sock opt value = sock.setOption opt value :=
  ⟨rfl, rfl, rfl, rfl⟩

/-- Claim C9: constructing a `Packet` from a source buffer, or copy-constructing one
from another `Packet`, produces a payload byte-for-byte equal to the source, stored
in a freshly allocated buffer distinct from every buffer already in the heap — in
particular from the source packet's buffer and from the originating notification
buffer — and leaves every existing buffer unchanged, so no two packets ever alias
the same payload storage. -/
theorem packet_ctor_deep_copies (hp : Heap) (a : Nat) (b : List Nat) (size : Nat)
    (ts : Int) (p : HeapPacket) (hid : p.bufId < hp.length)
    (hsz : p.size = (heapRead hp p.bufId).length) :
    (heapRead (packetCtor hp a b size ts).1 (packetCtor hp a b size ts).2.bufId =
        b.take size ∧
      ∀ i, i < hp.length → (packetCtor hp a b size ts).2.bufId ≠ i ∧
        heapRead (packetCtor hp a b size ts).1 i = heapRead hp i) ∧
    (heapRead (packetCopyCtor hp p).1 (packetCopyCtor hp p).2.bufId =
        heapRead hp p.bufId ∧
      (packetCopyCtor hp p).2.bufId ≠ p.bufId ∧
      heapRead (packetCopyCtor hp p).1 p.bufId = heapRead hp p.bufId) := by
  dsimp only [packetCtor, packetCopyCtor]
  refine ⟨⟨heapRead_append_self hp _, ?_⟩, ?_, ?_,
    heapRead_append_of_lt hp _ p.bufId hid⟩
  · intro i hi
    exact ⟨by omega, heapRead_append_of_lt hp _ i hi⟩
  · rw [heapRead_append_self, hsz, List.take_length]
  · omega

/-- Witness for C9: heap with one existing buffer `[5]`; a packet built from source
bytes `[3, 4]` and a copy of the packet owning buffer 0. -/
theorem packet_ctor_deep_copies_witness :
    (heapRead (packetCtor [[5]] 2 [3, 4] 2 9).1 (packetCtor [[5]] 2 [3, 4] 2 9).2.bufId =
        [3, 4].take 2 ∧
      ∀ i, i < ([[5]] : Heap).length → (packetCtor [[5]] 2 [3, 4] 2 9).2.bufId ≠ i ∧
        heapRead (packetCtor [[5]] 2 [3, 4] 2 9).1 i = heapRead [[5]] i) ∧
    (heapRead (packetCopyCtor [[5]] ⟨2, 0, 1, 9⟩).1
        (packetCopyCtor [[5]] ⟨2, 0, 1, 9⟩).2.bufId = heapRead [[5]] 0 ∧
      (packetCopyCtor [[5]] ⟨2, 0, 1, 9⟩).2.bufId ≠ (HeapPacket.mk 2 0 1 9).bufId ∧
      heapRead (packetCopyCtor [[5]] ⟨2, 0, 1, 9⟩).1 0 = heapRead [[5]] 0) :=
  packet_ctor_deep_copies [[5]] 2 [3, 4] 2 9 ⟨2, 0, 1, 9⟩ (by decide) (by decide)

end RtcTestClient
